import Mathlib

/-!
Verification development for the cleaner-controller repository.

The repository implements a Kubernetes controller (`ConditionalTTL`) that
deletes groups of resources once a TTL has elapsed and a list of CEL
conditions holds, plus a CEL extension library with custom sort functions.

This file shallowly embeds:

* the Go standard library's `sort.Slice` (package `sort`, `zsortfunc.go`,
  Go 1.19+ pdqsort), which `custom_cel.sortByOrder` and
  `custom_cel.sortUnstructured` use to sort;
* the custom CEL list functions `sortByOrder`, `sortUnstructured` and the
  `sort_by` macro expansion (`makeSortBy`) from `custom_cel/lists.go` and
  `custom_cel/unstructured.go`;
* the condition evaluator `EvaluateCELConditions` from
  `custom_cel/conditions.go`;
* the reconciliation state machine `Reconcile`, `resolveTarget` and
  `resolveTargets` from `controllers/conditionalttl_controller.go`,
  with the external Kubernetes client, the CEL runtime, the Helm
  uninstall call and the CloudEvents delivery modelled as oracles.

Machine integers are modelled as `Nat`/`Int`; the only wrap-around
arithmetic in scope (the xorshift generator in pdqsort's
`breakPatterns`) carries explicit `% 2^64` reductions.  Loops are
modelled by structural recursion, with an explicit fuel parameter where
the Go loop variable does not decrease structurally; every call site
passes fuel strictly larger than the number of iterations the Go loop
can perform, so the fuel-exhaustion branches are unreachable.
-/

namespace Cleaner

/-! ## Go `sort.Slice` (pdqsort, `sort/zsortfunc.go`, Go 1.19+)

`sort.Slice` is documented as *not* guaranteed to be stable.  The model
operates on a `List α` with a boolean `less` predicate; `data.Swap(i, j)`
and `data.Less(i, j)` become `lswap` and `lless`.  Go only ever calls them
in range; out-of-range access is modelled as a no-op / `false`. -/

/-- `data.Swap(i, j)` on a list. Out-of-range indices leave the list
unchanged (Go never produces them). -/
def lswap {α : Type} (l : List α) (i j : Nat) : List α :=
  match l.get? i, l.get? j with
  | some x, some y => (l.set i y).set j x
  | _, _ => l

/-- `data.Less(i, j)` on a list: the `less` predicate applied to the
elements at `i` and `j`; `false` out of range (Go never asks). -/
def lless {α : Type} (less : α → α → Bool) (l : List α) (i j : Nat) : Bool :=
  match l.get? i, l.get? j with
  | some x, some y => less x y
  | _, _ => false

/-- Inner loop of Go's `insertionSort_func`:
`for j := i; j > a && data.Less(j, j-1); j-- { data.Swap(j, j-1) }`.
The last argument is `j`; the loop stops at `j = 0` because `j > a` fails. -/
def insertionSortInner {α : Type} (less : α → α → Bool) (a : Nat) :
    List α → Nat → List α
  | l, 0 => l
  | l, j+1 =>
    if j + 1 > a && lless less l (j+1) j then
      insertionSortInner less a (lswap l (j+1) j) j
    else l

/-- Outer loop of `insertionSort_func`: `for i := a + 1; i < b; i++`.
`fuel` bounds the remaining iterations (call sites pass `b - a`). -/
def insertionSortOuter {α : Type} (less : α → α → Bool) (a b : Nat) :
    List α → Nat → Nat → List α
  | l, _, 0 => l
  | l, i, fuel+1 =>
    if i < b then
      insertionSortOuter less a b (insertionSortInner less a l i) (i+1) fuel
    else l

/-- Go's `insertionSort_func(data, a, b)`. -/
def insertionSort_func {α : Type} (less : α → α → Bool) (l : List α) (a b : Nat) :
    List α :=
  insertionSortOuter less a b l (a+1) (b - a)

/-- Loop of Go's `siftDown_func(data, lo, hi, first)`, recursing on `root`. -/
def siftDownLoop {α : Type} (less : α → α → Bool) (hi first : Nat) :
    List α → Nat → Nat → List α
  | l, _, 0 => l
  | l, root, fuel+1 =>
    let child := 2*root + 1
    if child ≥ hi then l
    else
      let child :=
        if child + 1 < hi && lless less l (first+child) (first+child+1) then
          child + 1
        else child
      if !(lless less l (first+root) (first+child)) then l
      else siftDownLoop less hi first (lswap l (first+root) (first+child)) child fuel

/-- Go's `siftDown_func(data, lo, hi, first)`. -/
def siftDown_func {α : Type} (less : α → α → Bool) (l : List α)
    (lo hi first : Nat) : List α :=
  siftDownLoop less hi first l lo (hi+1)

/-- Heap-building loop of `heapSort_func`:
`for i := (hi - 1) / 2; i >= 0; i--`; the `Nat` argument is `i + 1`. -/
def heapBuild {α : Type} (less : α → α → Bool) (hi first : Nat) :
    List α → Nat → List α
  | l, 0 => l
  | l, i+1 => heapBuild less hi first (siftDown_func less l i hi first) i

/-- Pop loop of `heapSort_func`:
`for i := hi - 1; i >= 0; i-- { Swap(first, first+i); siftDown(lo, i, first) }`;
the `Nat` argument is `i + 1`. -/
def heapPop {α : Type} (less : α → α → Bool) (first : Nat) :
    List α → Nat → List α
  | l, 0 => l
  | l, i+1 => heapPop less first (siftDown_func less (lswap l first (first+i)) 0 i first) i

/-- Go's `heapSort_func(data, a, b)`.  In Go `(hi-1)/2` is integer division
of ints; for `hi = 0` it is `0` there and under `Nat` subtraction alike. -/
def heapSort_func {α : Type} (less : α → α → Bool) (l : List α) (a b : Nat) :
    List α :=
  let first := a
  let hi := b - a
  heapPop less first (heapBuild less hi first l ((hi - 1) / 2 + 1)) hi

/-- Loop of Go's `reverseRange_func`: `i, j := a, b-1; for i < j { swap }`. -/
def reverseRangeLoop {α : Type} : List α → Nat → Nat → Nat → List α
  | l, _, _, 0 => l
  | l, i, j, fuel+1 =>
    if i < j then reverseRangeLoop (lswap l i j) (i+1) (j-1) fuel else l

/-- Go's `reverseRange_func(data, a, b)`. -/
def reverseRange_func {α : Type} (l : List α) (a b : Nat) : List α :=
  reverseRangeLoop l a (b - 1) b

/-- Go's `order2_func(data, a, b, &swaps)`: orders two indices, counting a
swap when `data.Less(b, a)`. -/
def order2_func {α : Type} (less : α → α → Bool) (l : List α)
    (a b swaps : Nat) : (Nat × Nat) × Nat :=
  if lless less l b a then ((b, a), swaps + 1) else ((a, b), swaps)

/-- Go's `median_func(data, a, b, c, &swaps)`: index of the median of three. -/
def median_func {α : Type} (less : α → α → Bool) (l : List α)
    (a b c swaps : Nat) : Nat × Nat :=
  let ((a, b), swaps) := order2_func less l a b swaps
  let ((b, _c), swaps) := order2_func less l b c swaps
  let ((_a, b), swaps) := order2_func less l a b swaps
  (b, swaps)

/-- Go's `medianAdjacent_func(data, a, &swaps)`: median of `a-1, a, a+1`. -/
def medianAdjacent_func {α : Type} (less : α → α → Bool) (l : List α)
    (a swaps : Nat) : Nat × Nat :=
  median_func less l (a-1) a (a+1) swaps

/-- Go's `sortedHint`. -/
inductive SortedHint
  | unknownHint
  | increasingHint
  | decreasingHint
  deriving DecidableEq

/-- Go's `choosePivot_func(data, a, b)`: median (or ninther for long ranges)
of three sample indices, plus a sortedness hint from the swap count
(`0` increasing, `12` decreasing, otherwise unknown). -/
def choosePivot_func {α : Type} (less : α → α → Bool) (l : List α)
    (a b : Nat) : Nat × SortedHint :=
  let len := b - a
  let i0 := a + len/4*1
  let j0 := a + len/4*2
  let k0 := a + len/4*3
  let jSwaps :=
    if len ≥ 8 then
      if len ≥ 50 then
        let (i1, s1) := medianAdjacent_func less l i0 0
        let (j1, s2) := medianAdjacent_func less l j0 s1
        let (k1, s3) := medianAdjacent_func less l k0 s2
        median_func less l i1 j1 k1 s3
      else median_func less l i0 j0 k0 0
    else (j0, 0)
  if jSwaps.2 = 0 then (jSwaps.1, .increasingHint)
  else if jSwaps.2 = 12 then (jSwaps.1, .decreasingHint)
  else (jSwaps.1, .unknownHint)

/-- Structural 64-bit bitwise helper: one bit per fuel step.  Used instead
of `Nat.xor`/`Nat.land` so that concrete evaluation reduces in the kernel. -/
def bitfold (f : Bool → Bool → Bool) : Nat → Nat → Nat → Nat
  | 0, _, _ => 0
  | fuel+1, n, m =>
    (if f (n % 2 = 1) (m % 2 = 1) then 1 else 0) + 2 * bitfold f fuel (n / 2) (m / 2)

/-- 64-bit XOR (operands below `2^64`). -/
def xor64 (n m : Nat) : Nat := bitfold (fun a b => a != b) 64 n m

/-- 64-bit AND (operands below `2^64`). -/
def and64 (n m : Nat) : Nat := bitfold (fun a b => a && b) 64 n m

/-- Go's `bits.Len(uint(n))` for `n < 2^64`, via fueled halving. -/
def bitsLenAux : Nat → Nat → Nat
  | 0, _ => 0
  | fuel+1, n => if n = 0 then 0 else bitsLenAux fuel (n / 2) + 1

/-- Go's `bits.Len` on `uint` (64-bit). -/
def bitsLen (n : Nat) : Nat := bitsLenAux 64 n

/-- Go's `nextPowerOfTwo(length) = 1 << bits.Len(uint(length))`. -/
def nextPowerOfTwo (length : Nat) : Nat := 1 <<< bitsLen length

/-- One step of Go's `xorshift.Next`: `r ^= r<<13; r ^= r>>7; r ^= r<<17`
on a 64-bit word; returns the new state (= the returned value). -/
def xorshiftNext (r : Nat) : Nat :=
  let r := xor64 r ((r <<< 13) % 2^64)
  let r := xor64 r (r >>> 7)
  xor64 r ((r <<< 17) % 2^64)

/-- Go's `breakPatterns_func(data, a, b)`: for ranges of length ≥ 8, swaps
three elements around the middle with pseudo-random ones. -/
def breakPatterns_func {α : Type} (l : List α) (a b : Nat) : List α :=
  let length := b - a
  if length ≥ 8 then
    let modulus := nextPowerOfTwo length
    let idx := a + (length/4)*2 - 1
    let r1 := xorshiftNext (length % 2^64)
    let o1 := and64 r1 (modulus - 1)
    let o1 := if o1 ≥ length then o1 - length else o1
    let l := lswap l (idx - 1) (a + o1)
    let r2 := xorshiftNext r1
    let o2 := and64 r2 (modulus - 1)
    let o2 := if o2 ≥ length then o2 - length else o2
    let l := lswap l idx (a + o2)
    let r3 := xorshiftNext r2
    let o3 := and64 r3 (modulus - 1)
    let o3 := if o3 ≥ length then o3 - length else o3
    lswap l (idx + 1) (a + o3)
  else l

/-- Advance loop of Go's `partialInsertionSort_func`:
`for i < b && !data.Less(i, i-1) { i++ }`; returns the new `i`. -/
def pisAdvance {α : Type} (less : α → α → Bool) (b : Nat) (l : List α) :
    Nat → Nat → Nat
  | i, 0 => i
  | i, fuel+1 =>
    if i < b && !(lless less l i (i-1)) then pisAdvance less b l (i+1) fuel else i

/-- Left-shift loop of `partialInsertionSort_func`:
`for j := i - 1; j >= 1; j-- { if !Less(j, j-1) break; Swap(j, j-1) }`. -/
def pisShiftLeft {α : Type} (less : α → α → Bool) : List α → Nat → List α
  | l, 0 => l
  | l, j+1 =>
    if lless less l (j+1) j then pisShiftLeft less (lswap l (j+1) j) j else l

/-- Right-shift loop of `partialInsertionSort_func`:
`for j := i + 1; j < b; j++ { if !Less(j, j-1) break; Swap(j, j-1) }`. -/
def pisShiftRight {α : Type} (less : α → α → Bool) (b : Nat) :
    List α → Nat → Nat → List α
  | l, _, 0 => l
  | l, j, fuel+1 =>
    if j < b && lless less l j (j-1) then
      pisShiftRight less b (lswap l j (j-1)) (j+1) fuel
    else l

/-- Outer loop of Go's `partialInsertionSort_func(data, a, b)` (at most
`maxSteps = 5` adjacent out-of-order pairs are fixed; no shifting for
ranges shorter than `shortestShifting = 50`).  Returns the data and
whether the range ended up sorted. -/
def pisOuter {α : Type} (less : α → α → Bool) (a b : Nat) :
    List α → Nat → Nat → List α × Bool
  | l, _, 0 => (l, false)
  | l, i, steps+1 =>
    let i := pisAdvance less b l i (b - i + 1)
    if i = b then (l, true)
    else if b - a < 50 then (l, false)
    else
      let l := lswap l i (i-1)
      let l := if i - a ≥ 2 then pisShiftLeft less l (i-1) else l
      let l := if b - i ≥ 2 then pisShiftRight less b l (i+1) (b - (i+1) + 1) else l
      pisOuter less a b l i steps

/-- Go's `partialInsertionSort_func(data, a, b)`. -/
def partialInsertionSort_func {α : Type} (less : α → α → Bool) (l : List α)
    (a b : Nat) : List α × Bool :=
  pisOuter less a b l (a+1) 5

/-- `i`-scan of Go's `partition_func`: `for i <= j && data.Less(i, a) { i++ }`. -/
def partScanI {α : Type} (less : α → α → Bool) (a : Nat) (l : List α) (j : Nat) :
    Nat → Nat → Nat
  | i, 0 => i
  | i, fuel+1 =>
    if i ≤ j && lless less l i a then partScanI less a l j (i+1) fuel else i

/-- `j`-scan of Go's `partition_func`: `for i <= j && !data.Less(j, a) { j-- }`. -/
def partScanJ {α : Type} (less : α → α → Bool) (a : Nat) (l : List α) (i : Nat) :
    Nat → Nat → Nat
  | j, 0 => j
  | j, fuel+1 =>
    if i ≤ j && !(lless less l j a) then partScanJ less a l i (j-1) fuel else j

/-- Main loop of Go's `partition_func` after the first swap: scan, swap,
repeat until the indices cross; returns the data and the final `j`. -/
def partitionLoop {α : Type} (less : α → α → Bool) (a b : Nat) :
    List α → Nat → Nat → Nat → List α × Nat
  | l, _, j, 0 => (l, j)
  | l, i, j, fuel+1 =>
    let i := partScanI less a l j i (b+1)
    let j := partScanJ less a l i j (b+1)
    if i > j then (l, j)
    else partitionLoop less a b (lswap l i j) (i+1) (j-1) fuel

/-- Go's `partition_func(data, a, b, pivot) -> (newpivot, alreadyPartitioned)`:
Hoare partition with the pivot parked at `a`. -/
def partition_func {α : Type} (less : α → α → Bool) (l : List α)
    (a b pivot : Nat) : List α × Nat × Bool :=
  let l := lswap l a pivot
  let i := partScanI less a l (b-1) (a+1) (b+1)
  let j := partScanJ less a l i (b-1) (b+1)
  if i > j then (lswap l j a, j, true)
  else
    let l := lswap l i j
    let lj := partitionLoop less a b l (i+1) (j-1) (b+1)
    (lswap lj.1 lj.2 a, lj.2, false)

/-- `i`-scan of Go's `partitionEqual_func`: `for i <= j && !Less(a, i) { i++ }`. -/
def peScanI {α : Type} (less : α → α → Bool) (a : Nat) (l : List α) (j : Nat) :
    Nat → Nat → Nat
  | i, 0 => i
  | i, fuel+1 =>
    if i ≤ j && !(lless less l a i) then peScanI less a l j (i+1) fuel else i

/-- `j`-scan of Go's `partitionEqual_func`: `for i <= j && Less(a, j) { j-- }`. -/
def peScanJ {α : Type} (less : α → α → Bool) (a : Nat) (l : List α) (i : Nat) :
    Nat → Nat → Nat
  | j, 0 => j
  | j, fuel+1 =>
    if i ≤ j && lless less l a j then peScanJ less a l i (j-1) fuel else j

/-- Loop of Go's `partitionEqual_func`; returns the data and the final `i`. -/
def partitionEqualLoop {α : Type} (less : α → α → Bool) (a b : Nat) :
    List α → Nat → Nat → Nat → List α × Nat
  | l, i, _, 0 => (l, i)
  | l, i, j, fuel+1 =>
    let i := peScanI less a l j i (b+1)
    let j := peScanJ less a l i j (b+1)
    if i > j then (l, i)
    else partitionEqualLoop less a b (lswap l i j) (i+1) (j-1) fuel

/-- Go's `partitionEqual_func(data, a, b, pivot) -> newpivot`: moves the
elements equal to the pivot (parked at `a`) to the front of the range. -/
def partitionEqual_func {α : Type} (less : α → α → Bool) (l : List α)
    (a b pivot : Nat) : List α × Nat :=
  let l := lswap l a pivot
  partitionEqualLoop less a b l (a+1) (b-1) (b+1)

/-- Go's `pdqsort_func(data, a, b, limit)`; `maxInsertion = 12`.  Both the
Go `for` loop and the recursive call are modelled by recursion; `fuel`
bounds the total nesting (call sites pass far more than the Go code can
use, and the length-≤-12 insertion-sort exit is checked before fuel is
consumed, exactly as it is the first statement of the Go loop body). -/
def pdqsortLoop {α : Type} (less : α → α → Bool) :
    Nat → List α → Nat → Nat → Nat → Bool → Bool → List α
  | 0, l, a, b, limit, _, _ =>
    if b - a ≤ 12 then insertionSort_func less l a b
    else if limit = 0 then heapSort_func less l a b
    else l
  | fuel+1, l, a, b, limit, wasBalanced, wasPartitioned =>
    if b - a ≤ 12 then insertionSort_func less l a b
    else if limit = 0 then heapSort_func less l a b
    else
      let length := b - a
      let ll : List α × Nat :=
        if !wasBalanced then (breakPatterns_func l a b, limit - 1) else (l, limit)
      let l := ll.1
      let limit := ll.2
      let ph := choosePivot_func less l a b
      let lph : List α × Nat × SortedHint :=
        if ph.2 = SortedHint.decreasingHint then
          (reverseRange_func l a b, (b - 1) - (ph.1 - a), SortedHint.increasingHint)
        else (l, ph.1, ph.2)
      let l := lph.1
      let pivot := lph.2.1
      let hint := lph.2.2
      let pis : List α × Bool :=
        if wasBalanced && wasPartitioned && decide (hint = SortedHint.increasingHint) then
          partialInsertionSort_func less l a b
        else (l, false)
      if pis.2 then pis.1
      else
        let l := pis.1
        if decide (0 < a) && !(lless less l (a-1) pivot) then
          let lm := partitionEqual_func less l a b pivot
          pdqsortLoop less fuel lm.1 lm.2 b limit wasBalanced wasPartitioned
        else
          let pr := partition_func less l a b pivot
          let l := pr.1
          let mid := pr.2.1
          let wasPartitioned := pr.2.2
          let leftLen := mid - a
          let rightLen := b - mid
          let balanceThreshold := length / 8
          let wasBalanced := decide (min leftLen rightLen ≥ balanceThreshold)
          let limit := limit - 1
          if leftLen < rightLen then
            pdqsortLoop less fuel
              (pdqsortLoop less fuel l a mid limit wasBalanced wasPartitioned)
              (mid+1) b limit wasBalanced wasPartitioned
          else
            pdqsortLoop less fuel
              (pdqsortLoop less fuel l (mid+1) b limit wasBalanced wasPartitioned)
              a mid limit wasBalanced wasPartitioned

/-- Go's `sort.Slice(x, less)`:
`limit := bits.Len(uint(length)); pdqsort_func(lessSwap, 0, length, limit)`.
The fuel `l.length + 100` strictly exceeds what pdqsort can consume
(each fuel unit is one loop iteration or recursion level, and every
iteration either shrinks the range or decrements `limit ≤ 64`). -/
def sortSlice {α : Type} (less : α → α → Bool) (l : List α) : List α :=
  pdqsortLoop less (l.length + 100) l 0 l.length (bitsLen l.length) true true

/-! ## `custom_cel/lists.go`: `sortByOrder`, `makeSortBy`, and
`custom_cel/unstructured.go`: `sortUnstructured`

CEL's dynamic values are modelled with types: a `pair` record
(`makePair`'s `{order, value}` map) becomes the structure `GoPair`; the
per-type `traits.Comparer.Compare` becomes an explicit comparison
function `cmp : κ → κ → Ordering` (`.lt`/`.eq`/`.gt` stand for the
returned `IntNegOne`/`IntZero`/`IntOne`).  The dynamic-type error paths
(`unable to convert to traits.Lister` / `traits.Mapper`) are outside
these typed inputs and are not modelled. -/

/-- The `{order, value}` record built by `makePair`. -/
structure GoPair (κ α : Type) where
  order : κ
  value : α
  deriving DecidableEq, Repr

/-- `ascSort` comparison predicate of `sortByOrder`: `Compare == IntNegOne`
means swap; `IntOne` and `IntZero` (equal) mean no swap. -/
def ascSortLess {κ α : Type} (cmp : κ → κ → Ordering) (p q : GoPair κ α) : Bool :=
  match cmp p.order q.order with
  | .lt => true
  | .gt => false
  | .eq => false

/-- `descSort` comparison predicate of `sortByOrder`: `Compare == IntOne`
means swap; `IntNegOne` and `IntZero` (equal) mean no swap. -/
def descSortLess {κ α : Type} (cmp : κ → κ → Ordering) (p q : GoPair κ α) : Bool :=
  match cmp p.order q.order with
  | .lt => false
  | .gt => true
  | .eq => false

/-- Go's `strings.ToLower` on one character, restricted to the ASCII
mapping (the only non-ASCII characters Go lowercases differently map to
non-ASCII results, so membership of the result in `{"asc", "desc"}` is
unaffected). -/
def charToLowerGo (c : Char) : Char :=
  if 'A' ≤ c ∧ c ≤ 'Z' then Char.ofNat (c.toNat + 32) else c

/-- Go's `strings.ToLower`. -/
def goToLower (s : String) : String := ⟨s.data.map charToLowerGo⟩

/-- `custom_cel.AscendingOrder`. -/
def AscendingOrder : String := "asc"

/-- `custom_cel.DescendingOrder`. -/
def DescendingOrder : String := "desc"

/-- Go's `sortByOrder(itemsVal, orderVal)` from `custom_cel/lists.go`:
extracts the `{order, value}` pairs, switches on
`strings.ToLower(order)` — `"asc"`/`"desc"` run `sort.Slice` with the
respective predicate, anything else is `types.NewErr("unknown order: %s")` —
and returns the `value` fields of the sorted pairs. -/
def sortByOrder {κ α : Type} (cmp : κ → κ → Ordering)
    (l : List (GoPair κ α)) (order : String) : Except String (List α) :=
  let low := goToLower order
  if low = AscendingOrder then
    .ok ((sortSlice (ascSortLess cmp) l).map GoPair.value)
  else if low = DescendingOrder then
    .ok ((sortSlice (descSortLess cmp) l).map GoPair.value)
  else
    .error ("unknown order: " ++ order)

/-- An unstructured Kubernetes object as far as `sortUnstructured`
observes it: its `metadata.creationTimestamp` (as an instant; the zero
value stands for a missing field) plus an identifier standing for the
rest of the content. -/
structure Unstr where
  creationTimestamp : Int
  uid : Nat
  deriving DecidableEq, Repr

/-- `ascSort` predicate of `sortUnstructured`:
`left.GetCreationTimestamp().Time.Before(right...)`. -/
def unstrAscLess (x y : Unstr) : Bool := x.creationTimestamp < y.creationTimestamp

/-- `descSort` predicate of `sortUnstructured`:
`left.GetCreationTimestamp().Time.After(right...)`. -/
def unstrDescLess (x y : Unstr) : Bool := y.creationTimestamp < x.creationTimestamp

/-- Go's `sortUnstructured(itemsVal, orderVal)` from
`custom_cel/unstructured.go`: same switch on `strings.ToLower(order)`,
sorting with `sort.Slice` by creation timestamp. -/
def sortUnstructured (l : List Unstr) (order : String) : Except String (List Unstr) :=
  let low := goToLower order
  if low = AscendingOrder then .ok (sortSlice unstrAscLess l)
  else if low = DescendingOrder then .ok (sortSlice unstrDescLess l)
  else .error ("unknown order: " ++ order)

/-- Go's `extractOrder(args)` in `makeSortBy`: the third macro argument's
literal when present, otherwise `types.String("asc")`. -/
def extractOrder (arg3 : Option String) : String :=
  match arg3 with
  | some o => o
  | none => "asc"

/-- Evaluation of the comprehension `makeSortBy` expands
`target.sort_by(v, keyExpr[, order])` into:
`__result__ = []; for v in target { __result__ += [pair(keyExpr(v), v)] };
sort(__result__, order-or-"asc")`.  The CEL comprehension folds over the
target in element order, appending one `pair` per element. -/
def sortByComprehension {κ α : Type} (cmp : κ → κ → Ordering)
    (l : List α) (key : α → κ) (arg3 : Option String) : Except String (List α) :=
  let order := extractOrder arg3
  let accu := l.foldl (fun accu v => accu ++ [GoPair.mk (key v) v]) []
  sortByOrder cmp accu order

/-- Modelled from the spec (§8, `sortBy` equivalence): "project
`(key, value)` pairs in input order, then `sort` those pairs by key, then
extract values".  The pair sort is the module's own (`sort.Slice` with the
`asc`/`desc` predicate, unknown order an error). -/
def sortBySpecSide {κ α : Type} (cmp : κ → κ → Ordering)
    (l : List α) (key : α → κ) (order : String) : Except String (List α) :=
  let pairs := l.map (fun v => GoPair.mk (key v) v)
  let low := goToLower order
  if low = AscendingOrder then
    .ok ((sortSlice (ascSortLess cmp) pairs).map GoPair.value)
  else if low = DescendingOrder then
    .ok ((sortSlice (descSortLess cmp) pairs).map GoPair.value)
  else
    .error ("unknown order: " ++ order)

/-! ## `api/v1alpha1`: condition reasons, condition type, data model

Kubernetes `metav1.Condition.Reason` is a string; the controller only ever
writes the constants of `api/v1alpha1/conditions.go`.  The model uses an
enumeration `ConditionReason` of those constants together with
`ConditionReason.goString`, the exact Go string value persisted in
`status.conditions[Ready].reason`. -/

deriving instance DecidableEq for Except

/-- The constants of `api/v1alpha1/conditions.go` (by Go constant name). -/
inductive ConditionReason
  | notExpired
  | keepMinimumAmount
  | targetResolveError
  | environmentError
  | compileError
  | evaluationError
  | resultNotBoolean
  | waitingForConditions
  | terminating
  deriving DecidableEq, Repr

/-- The string literal each constant of `api/v1alpha1/conditions.go` is
defined as — the value persisted in `status.conditions[Ready].reason`. -/
def ConditionReason.goString : ConditionReason → String
  | .notExpired => "NotExpired"
  | .keepMinimumAmount => "KeepMinimumAmount"
  | .targetResolveError => "TargetResolveError"
  | .environmentError => "ConditionEnvironmentError"
  | .compileError => "ConditionCompileError"
  | .evaluationError => "ConditionEvaluationError"
  | .resultNotBoolean => "ConditionResultNotBoolean"
  | .waitingForConditions => "WaitingForConditions"
  | .terminating => "Terminating"

/-- `v1alpha1.ConditionTypeReady`. -/
def ConditionTypeReady : String := "Ready"

/-- `metav1.ConditionStatus`: `"True"`, `"False"`, `"Unknown"`. -/
inductive ConditionStatus
  | conditionTrue
  | conditionFalse
  | conditionUnknown
  deriving DecidableEq, Repr

/-- `metav1.Condition` as the controller uses it (`LastTransitionTime`,
managed by `apimeta.SetStatusCondition`, carries no logic and is omitted). -/
structure MetaCondition where
  condType : String
  status : ConditionStatus
  reason : ConditionReason
  message : String
  observedGeneration : Int
  deriving DecidableEq, Repr

/-! ## `custom_cel`: `EvaluateCELConditions`

Per condition string, the CEL engine is asked to compile
(`env.Compile` + `env.Program`) and then evaluate (`prg.Eval(celCtx)`).
The environment and context are fixed for the whole loop, so each
condition's fate is a pure function of the condition string; the oracle
`celEval` returns it: a compile error, a runtime evaluation error, a
non-boolean result, or a boolean value.  `cel.NewEnv`'s outcome is the
oracle `envErr`. -/

/-- What compiling and evaluating one condition under the fixed
environment and context yields. -/
inductive CELOutcome
  | compileError (msg : String)
  | evalError (msg : String)
  | notBoolean
  | boolean (b : Bool)
  deriving DecidableEq, Repr

/-- The fields of the `readyCondition` that `EvaluateCELConditions`
writes (`Type` is always `ConditionTypeReady` and `ObservedGeneration`
is the caller's), plus its two return values. -/
structure EvalResult where
  status : ConditionStatus
  reason : ConditionReason
  message : String
  conditionsMet : Bool
  retryable : Bool
  deriving DecidableEq, Repr

/-- The `for cID, c := range conditions` loop of `EvaluateCELConditions`:
compile errors, evaluation errors and non-boolean results return
immediately (with `Status` still `False` from the function prologue); a
boolean `false` only clears `condsMet` and the loop continues.  After the
loop `Status` is set to `True` and the verdict is `Terminating` or
`WaitingForConditions`. -/
def evaluateCELConditionsLoop (celEval : String → CELOutcome) :
    Nat → Bool → List String → EvalResult
  | _, condsMet, [] =>
    if condsMet then
      ⟨.conditionTrue, .terminating, "Targets resolved and conditions met", true, false⟩
    else
      ⟨.conditionTrue, .waitingForConditions, "Waiting for conditions to be met", false, true⟩
  | cID, condsMet, c :: rest =>
    match celEval c with
    | .compileError m =>
      ⟨.conditionFalse, .compileError,
        "Error compiling condition " ++ toString cID ++ ": " ++ m, false, false⟩
    | .evalError m =>
      ⟨.conditionFalse, .evaluationError,
        "Error evaluating condition " ++ toString cID ++ ": " ++ m, false, true⟩
    | .notBoolean =>
      ⟨.conditionFalse, .resultNotBoolean,
        "Condition " ++ toString cID ++ " result is not a boolean value", false, false⟩
    | .boolean b => evaluateCELConditionsLoop celEval (cID+1) (condsMet && b) rest

/-- Go's `EvaluateCELConditions(opts, celCtx, conditions, readyCondition)`:
environment-creation failure is `ConditionEnvironmentError`, otherwise the
loop above runs with `condsMet = true`. -/
def evaluateCELConditions (envErr : Option String) (celEval : String → CELOutcome)
    (conditions : List String) : EvalResult :=
  match envErr with
  | some e =>
    ⟨.conditionFalse, .environmentError, "Error preparing CEL environment: " ++ e,
      false, false⟩
  | none => evaluateCELConditionsLoop celEval 0 true conditions

/-! ## `controllers/conditionalttl_controller.go`

The Kubernetes client (`r.Get`, `r.List`, `r.Update`, `r.Status().Update`,
`r.Delete`), the finalizer handlers' external effects (target deletion,
Helm uninstall, CloudEvent delivery) and the CEL engine are external
collaborators; they enter the model as oracles.  A reconciliation pass
returns the updated object, the ordered trace of state-changing API
calls it attempted, the requested requeue delay, and the returned error. -/

/-- `schema.GroupVersionKind` as the controller builds it
(`schema.FromAPIVersionAndKind`). -/
structure GVK where
  apiVersion : String
  kind : String
  deriving DecidableEq, Repr

/-- An opaque `metav1.LabelSelector` value. -/
structure LabelSelector where
  selId : Nat
  deriving DecidableEq, Repr

/-- `v1alpha1.TargetReference`. -/
structure TargetReference where
  apiVersion : String
  kind : String
  name : Option String
  labelSelector : Option LabelSelector
  deriving DecidableEq, Repr

/-- `v1alpha1.Target`. -/
structure Target where
  name : String
  delete : Bool
  includeWhenEvaluating : Bool
  reference : TargetReference
  deriving DecidableEq, Repr

/-- What `resolveTarget` returns: a single object's content or a
(possibly empty) list's content. -/
inductive UContent
  | single (u : Unstr)
  | list (items : List Unstr)
  deriving DecidableEq, Repr

/-- `v1alpha1.TargetStatus`. -/
structure TargetStatus where
  name : String
  delete : Bool
  includeWhenEvaluating : Bool
  state : UContent
  deriving DecidableEq, Repr

/-- An error from the Kubernetes API, as far as the controller
distinguishes (`apierrors.IsNotFound`). -/
inductive ApiError
  | notFound
  | other (msg : String)
  deriving DecidableEq, Repr

/-- `err.Error()` for an `ApiError`. -/
def ApiError.errString : ApiError → String
  | .notFound => "not found"
  | .other m => m

/-- An `UnstructuredList` response: items plus the continuation token
checked by `resolveTarget`'s sanity check. -/
structure ListResult where
  items : List Unstr
  continueToken : String
  deriving DecidableEq, Repr

/-- The Kubernetes read API as `resolveTarget` uses it, plus
`metav1.LabelSelectorAsSelector`. -/
structure Store where
  get : GVK → String → String → Except ApiError Unstr
  labelSelectorAsSelector : LabelSelector → Except String LabelSelector
  list : GVK → LabelSelector → String → Except ApiError ListResult

/-- Go's `resolveTarget(ctx, namespace, t)`: fetch by name when
`t.Reference.Name` is set (any error, not-found included, propagates);
otherwise list by label selector (an empty item list is a success),
with the continuation-token sanity check. -/
def resolveTarget (store : Store) (ns : String) (t : Target) : Except String UContent :=
  let gvk : GVK := ⟨t.reference.apiVersion, t.reference.kind⟩
  match t.reference.name with
  | some n =>
    match store.get gvk n ns with
    | .error e => .error e.errString
    | .ok u => .ok (.single u)
  | none =>
    match t.reference.labelSelector with
    | none =>
      .error ("Target \"" ++ t.name ++ "\" reference Name and LabelSelector can't both be nil")
    | some sel =>
      match store.labelSelectorAsSelector sel with
      | .error e => .error e
      | .ok ls =>
        match store.list gvk ls ns with
        | .error e => .error e.errString
        | .ok lr =>
          if lr.continueToken ≠ "" then .error "r.List: unexpected continuation token"
          else .ok (.list lr.items)

/-- Go's `resolveTargets(ctx, cTTL)`: resolves each declared target in
order into a `TargetStatus`; the first failure aborts with the
`Error resolving target %q: %w` wrap. -/
def resolveTargets (store : Store) (ns : String) :
    List Target → Except String (List TargetStatus)
  | [] => .ok []
  | t :: rest =>
    match resolveTarget store ns t with
    | .error e => .error ("Error resolving target \"" ++ t.name ++ "\": " ++ e)
    | .ok u =>
      match resolveTargets store ns rest with
      | .error e => .error e
      | .ok ts => .ok (⟨t.name, t.delete, t.includeWhenEvaluating, u⟩ :: ts)

/-- `v1alpha1.ConditionalTTLStatus`, with `status.conditions` reduced to
its `Ready` entry (the only type the controller manages, via
`apimeta.SetStatusCondition`). -/
structure CTTLStatus where
  targets : List TargetStatus
  evaluationTime : Option Int
  ready : Option MetaCondition
  deriving DecidableEq, Repr

/-- A `v1alpha1.ConditionalTTL` object: the metadata fields the controller
reads or writes, the spec, and the status. -/
structure ConditionalTTL where
  nsName : String
  creationTimestamp : Int
  deletionTimestamp : Option Int
  generation : Int
  finalizers : List String
  ttl : Int
  retryPeriod : Option Int
  targets : List Target
  conditions : List String
  status : CTTLStatus
  deriving DecidableEq, Repr

/-- The three finalizer names of the package-level `finalizers` list, in
declared order. -/
def targetFinalizerName : String := "cleaner.vtex.io/target-finalizer"

/-- Second entry of the `finalizers` list. -/
def releaseFinalizerName : String := "cleaner.vtex.io/release-finalizer"

/-- Third entry of the `finalizers` list. -/
def cloudEventFinalizerName : String := "cleaner.vtex.io/cloud-event-finalizer"

/-- The ordered names of the package-level `finalizers` variable. -/
def finalizerNames : List String :=
  [targetFinalizerName, releaseFinalizerName, cloudEventFinalizerName]

/-- `controllerutil.ContainsFinalizer`. -/
def containsFinalizer (c : ConditionalTTL) (f : String) : Bool :=
  c.finalizers.contains f

/-- `controllerutil.RemoveFinalizer`: removes every occurrence. -/
def removeFinalizer (fins : List String) (f : String) : List String :=
  fins.filter (fun x => x ≠ f)

/-- `controllerutil.AddFinalizer`: appends unless present. -/
def addFinalizer (fins : List String) (f : String) : List String :=
  if fins.contains f then fins else fins ++ [f]

/-- A state-changing API call attempted during one reconciliation pass.
`update` and `deleteSelf` record the object's finalizer list as passed
to the call. -/
inductive Event
  | runFinalizer (name : String)
  | update (finalizers : List String)
  | statusUpdate (status : CTTLStatus)
  | deleteSelf (finalizers : List String)
  deriving DecidableEq, Repr

/-- What one `Reconcile` invocation produced: the object as last mutated
in memory, the ordered trace of attempted state-changing calls, the
`ctrl.Result.RequeueAfter` (`none` for the zero result) and the returned
error. -/
structure ReconcileResult where
  cttl : ConditionalTTL
  trace : List Event
  requeueAfter : Option Int
  err : Option String
  deriving DecidableEq, Repr

/-- The external world of one reconciliation pass: the store, the clock,
the CEL engine's behaviour for this object's environment and context
(`envErr` for `cel.NewEnv`, `celEval` per condition string), each
finalizer handler's outcome, and the outcome of each kind of
state-changing call. -/
structure ReconcileEnv where
  store : Store
  now : Int
  envErr : Option String
  celEval : String → CELOutcome
  finalizerErr : String → Option String
  statusUpdateErr : Option String
  updateErr : Option String
  deleteErr : Option String

/-- `apimeta.SetStatusCondition(&cTTL.Status.Conditions, readyCondition)`
for the `Ready` type. -/
def setReadyCondition (c : ConditionalTTL) (mc : MetaCondition) : ConditionalTTL :=
  { c with status := { c.status with ready := some mc } }

/-- The deletion branch of `Reconcile` (`!cTTL.DeletionTimestamp.IsZero()`):
walk the package-level finalizer list in order, skip absent markers, run
the first present one; on handler success remove exactly that marker and
persist, then return so the update-triggered reconcile continues. -/
def reconcileDeletion (env : ReconcileEnv) (c : ConditionalTTL) : ReconcileResult :=
  match finalizerNames.find? (fun f => containsFinalizer c f) with
  | none => ⟨c, [], none, none⟩
  | some f =>
    match env.finalizerErr f with
    | some e => ⟨c, [.runFinalizer f], none, some e⟩
    | none =>
      let c := { c with finalizers := removeFinalizer c.finalizers f }
      match env.updateErr with
      | some e => ⟨c, [.runFinalizer f, .update c.finalizers], none, some e⟩
      | none => ⟨c, [.runFinalizer f, .update c.finalizers], none, none⟩

/-- Go's `Reconcile(ctx, req)` after the initial `r.Get` (the object is
the input): deletion branch; TTL gate with requeue at the expiry
instant; target resolution with `TargetResolveError` on failure;
condition evaluation with status publication; on a met verdict, freezing
targets and evaluation time into status, attaching the missing finalizer
markers (persisted before deletion), and requesting self-deletion. -/
def reconcile (env : ReconcileEnv) (c : ConditionalTTL) : ReconcileResult :=
  if c.deletionTimestamp ≠ none then reconcileDeletion env c
  else
    let t := env.now
    let expiresAt := c.creationTimestamp + c.ttl
    if ¬ expiresAt < t then
      let c := setReadyCondition c
        ⟨ConditionTypeReady, .conditionUnknown, .notExpired,
          "Waiting for resource to expire", c.generation⟩
      match env.statusUpdateErr with
      | some e => ⟨c, [.statusUpdate c.status], none, some e⟩
      | none => ⟨c, [.statusUpdate c.status], some (expiresAt - t), none⟩
    else
      match resolveTargets env.store c.nsName c.targets with
      | .error e =>
        let c := setReadyCondition c
          ⟨ConditionTypeReady, .conditionFalse, .targetResolveError,
            "Error resolving targets: " ++ e, c.generation⟩
        match env.statusUpdateErr with
        | some e2 => ⟨c, [.statusUpdate c.status], none, some e2⟩
        | none => ⟨c, [.statusUpdate c.status], none, some e⟩
      | .ok ts =>
        let er := evaluateCELConditions env.envErr env.celEval c.conditions
        let c := setReadyCondition c
          ⟨ConditionTypeReady, er.status, er.reason, er.message, c.generation⟩
        if ¬ er.conditionsMet then
          match env.statusUpdateErr with
          | some e => ⟨c, [.statusUpdate c.status], none, some e⟩
          | none =>
            if er.retryable && c.retryPeriod.isSome then
              ⟨c, [.statusUpdate c.status], c.retryPeriod, none⟩
            else ⟨c, [.statusUpdate c.status], none, none⟩
        else
          let c := { c with status :=
            { c.status with targets := ts, evaluationTime := some t } }
          match env.statusUpdateErr with
          | some e => ⟨c, [.statusUpdate c.status], none, some e⟩
          | none =>
            let needsUpdate := finalizerNames.any (fun f => !(c.finalizers.contains f))
            let newFins := finalizerNames.foldl addFinalizer c.finalizers
            let c := { c with finalizers := newFins }
            let tr := [Event.statusUpdate c.status]
            if needsUpdate then
              match env.updateErr with
              | some e => ⟨c, tr ++ [.update newFins], none, some e⟩
              | none =>
                match env.deleteErr with
                | some e =>
                  ⟨c, tr ++ [.update newFins, .deleteSelf c.finalizers], none, some e⟩
                | none =>
                  ⟨c, tr ++ [.update newFins, .deleteSelf c.finalizers], none, none⟩
            else
              match env.deleteErr with
              | some e => ⟨c, tr ++ [.deleteSelf c.finalizers], none, some e⟩
              | none => ⟨c, tr ++ [.deleteSelf c.finalizers], none, none⟩

/-! ## Helper lemmas -/

/-- Folding `acc ++ [f v]` over a list appends its image: the comprehension
accumulator of the `sort_by` expansion builds exactly the projected pairs
in input order. -/
theorem foldl_append_singleton {α β : Type} (f : α → β) :
    ∀ (l : List α) (acc : List β),
      l.foldl (fun a v => a ++ [f v]) acc = acc ++ l.map f
  | [], acc => by simp
  | x :: l, acc => by
    simp only [List.foldl_cons, List.map_cons]
    rw [foldl_append_singleton f l (acc ++ [f x])]
    simp

/-! ## C6: the `sort_by` macro expansion is the project–sort–extract pipeline -/

/-- C6: for every list of records exposing the projected field, evaluating
the `sort_by` macro expansion equals projecting `pair(key, value)` records
in input order, sorting those pairs by the `order` field, and extracting
the values; with 2 macro arguments the order defaults to `"asc"`, with 3
the explicit order literal is used. -/
theorem sortBy_expansion_is_project_sort_extract :
    ∀ (κ α : Type) (cmp : κ → κ → Ordering) (l : List α) (key : α → κ),
      sortByComprehension cmp l key none = sortBySpecSide cmp l key "asc"
      ∧ ∀ o : String, sortByComprehension cmp l key (some o) = sortBySpecSide cmp l key o := by
  intro κ α cmp l key
  constructor
  · simp [sortByComprehension, sortBySpecSide, extractOrder, sortByOrder,
      foldl_append_singleton]
  · intro o
    simp [sortByComprehension, sortBySpecSide, extractOrder, sortByOrder,
      foldl_append_singleton]

/-! ## C7: unknown order strings are evaluation errors -/

/-- C7: any order argument that is not a case-insensitive match of
`"asc"` or `"desc"` makes both `sortByOrder` and `sortUnstructured`
return the `unknown order` evaluation error; no default ordering is used. -/
theorem unknown_order_always_errors (o : String)
    (h1 : goToLower o ≠ AscendingOrder) (h2 : goToLower o ≠ DescendingOrder) :
    (∀ (κ α : Type) (cmp : κ → κ → Ordering) (l : List (GoPair κ α)),
      sortByOrder cmp l o = .error ("unknown order: " ++ o))
    ∧ (∀ l : List Unstr, sortUnstructured l o = .error ("unknown order: " ++ o)) := by
  constructor
  · intro κ α cmp l
    simp [sortByOrder, h1, h2]
  · intro l
    simp [sortUnstructured, h1, h2]

/-- Witness for C7 at the concrete order string `"newest"`. -/
theorem unknown_order_always_errors_witness :
    sortByOrder compare ([⟨3, 0⟩, ⟨1, 1⟩] : List (GoPair Int Nat)) "newest" =
      .error "unknown order: newest"
    ∧ sortUnstructured [⟨5, 0⟩] "newest" = .error "unknown order: newest" :=
  ⟨(unknown_order_always_errors "newest" (by decide) (by decide)).1 Int Nat compare _,
   (unknown_order_always_errors "newest" (by decide) (by decide)).2 _⟩

/-! ## C4: the TTL gate -/

/-- C4: while `now <= creationTime + ttl` (and the object is not being
deleted), reconciliation publishes `Ready = Unknown/NotExpired` regardless
of targets or conditions, returns no error, and requeues after exactly
`expiresAt - now`, i.e. at the expiry instant `creationTime + ttl`. -/
theorem notExpired_requeues_at_expiry (env : ReconcileEnv) (c : ConditionalTTL)
    (hdel : c.deletionTimestamp = none)
    (httl : ¬ c.creationTimestamp + c.ttl < env.now)
    (hst : env.statusUpdateErr = none) :
    (reconcile env c).cttl.status.ready = some
      ⟨ConditionTypeReady, .conditionUnknown, .notExpired,
        "Waiting for resource to expire", c.generation⟩
    ∧ (reconcile env c).requeueAfter = some (c.creationTimestamp + c.ttl - env.now)
    ∧ env.now + (c.creationTimestamp + c.ttl - env.now) = c.creationTimestamp + c.ttl
    ∧ (reconcile env c).err = none := by
  refine ⟨?_, ?_, by ring, ?_⟩ <;>
    simp [reconcile, hdel, httl, hst, setReadyCondition]

/-- A store with no objects, used by concrete witnesses. -/
def emptyStore : Store :=
  ⟨fun _ _ _ => .error .notFound, fun s => .ok s, fun _ _ _ => .ok ⟨[], ""⟩⟩

/-- A benign oracle environment at instant 5, used by concrete witnesses. -/
def envAt5 : ReconcileEnv :=
  ⟨emptyStore, 5, none, fun _ => .boolean true, fun _ => none, none, none, none⟩

/-- A fresh ConditionalTTL (created at 0, ttl 10, no targets/conditions),
used by concrete witnesses. -/
def freshCTTL : ConditionalTTL :=
  ⟨"ns", 0, none, 1, [], 10, none, [], [], ⟨[], none, none⟩⟩

/-- Witness for C4: at instant 5 a ttl-10 object created at 0 reports
NotExpired/Unknown and requeues after 5, landing exactly on the expiry
instant 10. -/
theorem notExpired_requeues_at_expiry_witness :
    (reconcile envAt5 freshCTTL).cttl.status.ready = some
      ⟨ConditionTypeReady, .conditionUnknown, .notExpired,
        "Waiting for resource to expire", freshCTTL.generation⟩
    ∧ (reconcile envAt5 freshCTTL).requeueAfter =
        some (freshCTTL.creationTimestamp + freshCTTL.ttl - envAt5.now)
    ∧ envAt5.now + (freshCTTL.creationTimestamp + freshCTTL.ttl - envAt5.now) =
        freshCTTL.creationTimestamp + freshCTTL.ttl
    ∧ (reconcile envAt5 freshCTTL).err = none :=
  notExpired_requeues_at_expiry envAt5 freshCTTL rfl (by decide) rfl

/-! ## C5: label-selector targets may be empty; named targets must exist -/

/-- C5: resolving a label-selector target whose listing returns zero
items succeeds with the empty sequence, while resolving a single-name
target whose `Get` reports not-found propagates the error. -/
theorem resolveTarget_empty_list_ok_notFound_err :
    (∀ (store : Store) (ns : String) (t : Target) (sel ls : LabelSelector),
      t.reference.name = none →
      t.reference.labelSelector = some sel →
      store.labelSelectorAsSelector sel = .ok ls →
      store.list ⟨t.reference.apiVersion, t.reference.kind⟩ ls ns = .ok ⟨[], ""⟩ →
      resolveTarget store ns t = .ok (.list []))
    ∧ (∀ (store : Store) (ns : String) (t : Target) (n : String),
      t.reference.name = some n →
      store.get ⟨t.reference.apiVersion, t.reference.kind⟩ n ns = .error .notFound →
      resolveTarget store ns t = .error (ApiError.notFound.errString)) := by
  constructor
  · intro store ns t sel ls hn hsel hparse hlist
    simp [resolveTarget, hn, hsel, hparse, hlist]
  · intro store ns t n hn hget
    simp [resolveTarget, hn, hget]

/-- A target selecting by label (selector id 0) with no matches in
`emptyStore`. -/
def selectorTarget : Target :=
  ⟨"grp", true, true, ⟨"v1", "Pod", none, some ⟨0⟩⟩⟩

/-- A target naming a single object that `emptyStore` does not hold. -/
def namedTarget : Target :=
  ⟨"one", true, true, ⟨"v1", "Pod", some "missing", none⟩⟩

/-- Witness for C5: against the empty store, the selector target resolves
to the empty sequence and the named target propagates not-found. -/
theorem resolveTarget_empty_list_ok_notFound_err_witness :
    resolveTarget emptyStore "ns" selectorTarget = .ok (.list [])
    ∧ resolveTarget emptyStore "ns" namedTarget = .error (ApiError.notFound.errString) :=
  ⟨resolveTarget_empty_list_ok_notFound_err.1 emptyStore "ns" selectorTarget ⟨0⟩ ⟨0⟩
      rfl rfl rfl rfl,
   resolveTarget_empty_list_ok_notFound_err.2 emptyStore "ns" namedTarget "missing"
      rfl rfl⟩

/-! ## Loop lemmas for the condition evaluator -/

/-- Conditions whose outcome is a boolean value never abort the loop: a
prefix of boolean-valued conditions is consumed, advancing the index and
threading some accumulated `condsMet`. -/
theorem evalLoop_skip_booleans (ev : String → CELOutcome) :
    ∀ (pre : List String) (cID : Nat) (condsMet : Bool) (rest : List String),
      (∀ p ∈ pre, ∃ b, ev p = .boolean b) →
      ∃ cm, evaluateCELConditionsLoop ev cID condsMet (pre ++ rest) =
        evaluateCELConditionsLoop ev (cID + pre.length) cm rest
  | [], cID, condsMet, rest, _ => ⟨condsMet, by simp⟩
  | p :: pre, cID, condsMet, rest, h => by
    obtain ⟨b, hb⟩ := h p (by simp)
    obtain ⟨cm, hcm⟩ :=
      evalLoop_skip_booleans ev pre (cID + 1) (condsMet && b) rest
        (fun q hq => h q (by simp [hq]))
    refine ⟨cm, ?_⟩
    have harith : cID + (p :: pre).length = (cID + 1) + pre.length := by
      simp [List.length_cons]
      omega
    rw [harith]
    simpa only [List.cons_append, evaluateCELConditionsLoop, hb] using hcm

/-- If every condition's outcome is a boolean value, the loop ends with
status `True`, reason `Terminating` exactly when `condsMet` holds and all
booleans are `true`, and the reason is one of
`Terminating`/`WaitingForConditions`. -/
theorem evalLoop_all_booleans (ev : String → CELOutcome) :
    ∀ (conds : List String) (cID : Nat) (condsMet : Bool),
      (∀ p ∈ conds, ∃ b, ev p = .boolean b) →
      (evaluateCELConditionsLoop ev cID condsMet conds).status = .conditionTrue
      ∧ ((evaluateCELConditionsLoop ev cID condsMet conds).reason = .terminating ↔
          (condsMet = true ∧ ∀ p ∈ conds, ev p = .boolean true))
      ∧ ((evaluateCELConditionsLoop ev cID condsMet conds).reason = .terminating
         ∨ (evaluateCELConditionsLoop ev cID condsMet conds).reason = .waitingForConditions)
  | [], cID, condsMet, _ => by
    cases condsMet <;> simp [evaluateCELConditionsLoop]
  | p :: conds, cID, condsMet, h => by
    obtain ⟨b, hb⟩ := h p (by simp)
    have ih := evalLoop_all_booleans ev conds (cID + 1) (condsMet && b)
      (fun q hq => h q (by simp [hq]))
    simp only [evaluateCELConditionsLoop, hb]
    refine ⟨ih.1, ?_, ih.2.2⟩
    rw [ih.2.1]
    constructor
    · rintro ⟨hcb, hall⟩
      rcases Bool.and_eq_true_iff.mp hcb with ⟨h1, h2⟩
      refine ⟨h1, ?_⟩
      intro q hq
      rcases List.mem_cons.mp hq with hq | hq
      · subst hq; rw [hb, h2]
      · exact hall q hq
    · rintro ⟨h1, hall⟩
      have hbt : b = true := by
        have := hall p (by simp)
        rw [hb] at this
        injection this
      exact ⟨by simp [h1, hbt], fun q hq => hall q (List.mem_cons_of_mem _ hq)⟩

/-- Whenever the loop reports status `False`, the reason is one of the
abort reasons (compile error, evaluation error, non-boolean result). -/
theorem evalLoop_false_is_error (ev : String → CELOutcome) :
    ∀ (conds : List String) (cID : Nat) (condsMet : Bool),
      (evaluateCELConditionsLoop ev cID condsMet conds).status = .conditionFalse →
      (evaluateCELConditionsLoop ev cID condsMet conds).reason ∈
        [ConditionReason.compileError, .evaluationError, .resultNotBoolean]
  | [], cID, condsMet => by
    cases condsMet <;> simp [evaluateCELConditionsLoop]
  | p :: conds, cID, condsMet => by
    cases hp : ev p with
    | boolean b =>
      intro h
      have := evalLoop_false_is_error ev conds (cID + 1) (condsMet && b)
        (by simpa [evaluateCELConditionsLoop, hp] using h)
      simpa [evaluateCELConditionsLoop, hp] using this
    | compileError m => simp [evaluateCELConditionsLoop, hp]
    | evalError m => simp [evaluateCELConditionsLoop, hp]
    | notBoolean => simp [evaluateCELConditionsLoop, hp]

/-- The reasons the evaluator's loop can produce, over all inputs. -/
theorem evalLoop_reason_cases (ev : String → CELOutcome) :
    ∀ (conds : List String) (cID : Nat) (condsMet : Bool),
      (evaluateCELConditionsLoop ev cID condsMet conds).reason ∈
        [ConditionReason.compileError, .evaluationError, .resultNotBoolean,
          .waitingForConditions, .terminating]
  | [], cID, condsMet => by cases condsMet <;> simp [evaluateCELConditionsLoop]
  | p :: conds, cID, condsMet => by
    cases hp : ev p with
    | boolean b =>
      have := evalLoop_reason_cases ev conds (cID + 1) (condsMet && b)
      simpa [evaluateCELConditionsLoop, hp] using this
    | compileError m => simp [evaluateCELConditionsLoop, hp]
    | evalError m => simp [evaluateCELConditionsLoop, hp]
    | notBoolean => simp [evaluateCELConditionsLoop, hp]

/-- The reasons the evaluator can produce, over all inputs. -/
theorem evalResult_reason_cases (envErr : Option String) (ev : String → CELOutcome)
    (conds : List String) :
    (evaluateCELConditions envErr ev conds).reason ∈
      [ConditionReason.environmentError, .compileError, .evaluationError,
        .resultNotBoolean, .waitingForConditions, .terminating] := by
  cases envErr with
  | some e => simp [evaluateCELConditions]
  | none =>
    have := evalLoop_reason_cases ev conds 0 true
    simp only [evaluateCELConditions]
    simpa using Or.inr this

/-! ## C2: order of processing and error priority in the evaluator -/

/-- C2: the evaluator walks the conditions in declared order and keeps
going after a `false` boolean; the first condition whose compilation or
evaluation fails aborts the pass with `CompileError` / `EvaluationError`
and that condition's index in the message, regardless of any earlier
`false`.  In particular `[A, B]` with A false and B failing to compile
reports `CompileError`, not `WaitingForConditions`. -/
theorem conditions_error_dominates_false (ev : String → CELOutcome)
    (pre rest : List String) (c : String)
    (hpre : ∀ p ∈ pre, ∃ b, ev p = .boolean b) :
    (∀ m, ev c = .compileError m →
      evaluateCELConditions none ev (pre ++ c :: rest) =
        ⟨.conditionFalse, .compileError,
          "Error compiling condition " ++ toString pre.length ++ ": " ++ m,
          false, false⟩)
    ∧ (∀ m, ev c = .evalError m →
      evaluateCELConditions none ev (pre ++ c :: rest) =
        ⟨.conditionFalse, .evaluationError,
          "Error evaluating condition " ++ toString pre.length ++ ": " ++ m,
          false, true⟩) := by
  obtain ⟨cm, hcm⟩ := evalLoop_skip_booleans ev pre 0 true (c :: rest) hpre
  constructor
  · intro m hc
    simp [evaluateCELConditions, hcm, evaluateCELConditionsLoop, hc]
  · intro m hc
    simp [evaluateCELConditions, hcm, evaluateCELConditionsLoop, hc]

/-- The evaluation oracle for the C2 witness: condition `"A"` evaluates to
`false`, everything else fails to compile with message `"boom"`. -/
def evABOracle : String → CELOutcome :=
  fun s => if s = "A" then .boolean false else .compileError "boom"

/-- Witness for C2 at conditions `["A", "B"]`: A is false, B fails to
compile, and the verdict is CompileError at index 1, not
WaitingForConditions. -/
theorem conditions_error_dominates_false_witness :
    evaluateCELConditions none evABOracle ["A", "B"] =
      ⟨.conditionFalse, .compileError, "Error compiling condition 1: boom",
        false, false⟩ :=
  (conditions_error_dominates_false evABOracle ["A"] [] "B"
      (by intro p hp; simp at hp; exact ⟨false, by simp [hp, evABOracle]⟩)).1
    "boom" (by simp [evABOracle])

/-! ## C9: status `True` for both verdicts, `False` only for errors -/

/-- C9: when every condition compiles and evaluates to a boolean, the
Ready status is set to `True` — with reason `Terminating` exactly when
all booleans are true and `WaitingForConditions` otherwise — while
status `False` arises only with one of the error reasons (environment,
compile, evaluation, non-boolean result). -/
theorem status_true_verdicts_false_only_errors :
    (∀ (ev : String → CELOutcome) (conds : List String),
      (∀ p ∈ conds, ∃ b, ev p = .boolean b) →
      (evaluateCELConditions none ev conds).status = .conditionTrue
      ∧ ((evaluateCELConditions none ev conds).reason = .terminating ↔
          ∀ p ∈ conds, ev p = .boolean true)
      ∧ ((evaluateCELConditions none ev conds).reason = .terminating
         ∨ (evaluateCELConditions none ev conds).reason = .waitingForConditions))
    ∧ (∀ (envErr : Option String) (ev : String → CELOutcome) (conds : List String),
      (evaluateCELConditions envErr ev conds).status = .conditionFalse →
      (evaluateCELConditions envErr ev conds).reason ∈
        [ConditionReason.environmentError, .compileError, .evaluationError,
          .resultNotBoolean]) := by
  constructor
  · intro ev conds h
    have := evalLoop_all_booleans ev conds 0 true h
    refine ⟨this.1, ?_, this.2.2⟩
    rw [show evaluateCELConditions none ev conds =
      evaluateCELConditionsLoop ev 0 true conds from rfl, this.2.1]
    simp
  · intro envErr ev conds
    cases envErr with
    | some e => intro _; simp [evaluateCELConditions]
    | none =>
      intro h
      have := evalLoop_false_is_error ev conds 0 true
        (by simpa [evaluateCELConditions] using h)
      simp only [evaluateCELConditions]
      simpa using Or.inr this

/-- The evaluation oracle for the C9 witness: `"A"` is true, `"B"` is
false, both booleans. -/
def evBoolOracle : String → CELOutcome :=
  fun s => if s = "A" then .boolean true else .boolean false

/-- Witness for C9 at conditions `["A", "B"]` (both boolean, one false):
status is True with reason WaitingForConditions. -/
theorem status_true_verdicts_false_only_errors_witness :
    (evaluateCELConditions none evBoolOracle ["A", "B"]).status = .conditionTrue
    ∧ ((evaluateCELConditions none evBoolOracle ["A", "B"]).reason = .terminating
       ∨ (evaluateCELConditions none evBoolOracle ["A", "B"]).reason =
          .waitingForConditions) :=
  have h := status_true_verdicts_false_only_errors.1 evBoolOracle ["A", "B"]
    (by
      intro p hp
      rcases List.mem_cons.mp hp with h | h
      · exact ⟨true, by simp [h, evBoolOracle]⟩
      · simp at h
        exact ⟨false, by simp [h, evBoolOracle]⟩)
  ⟨h.1, h.2.2⟩

/-! ## C10: empty condition list means an immediate Terminating verdict -/

/-- C10: with no conditions declared, the evaluator returns the
`Terminating` verdict (`conditionsMet = true`, `retryable = false`,
status `True`), and an expired object with successfully resolved targets
and no conditions goes straight to snapshot freezing, finalizer
attachment and self-deletion in one pass. -/
theorem empty_conditions_terminate_immediately :
    (∀ ev : String → CELOutcome,
      evaluateCELConditions none ev [] =
        ⟨.conditionTrue, .terminating, "Targets resolved and conditions met",
          true, false⟩)
    ∧ (∀ (env : ReconcileEnv) (c : ConditionalTTL) (ts : List TargetStatus),
      c.deletionTimestamp = none →
      c.creationTimestamp + c.ttl < env.now →
      c.conditions = [] →
      env.envErr = none →
      resolveTargets env.store c.nsName c.targets = .ok ts →
      c.finalizers = [] →
      env.statusUpdateErr = none →
      env.updateErr = none →
      env.deleteErr = none →
      (reconcile env c).trace =
        [.statusUpdate ⟨ts, some env.now, some
            ⟨ConditionTypeReady, .conditionTrue, .terminating,
              "Targets resolved and conditions met", c.generation⟩⟩,
          .update finalizerNames, .deleteSelf finalizerNames]
      ∧ (reconcile env c).err = none) := by
  constructor
  · intro ev
    rfl
  · intro env c ts hdel httl hconds henv hres hfin hst hup hde
    have httl2 : c.creationTimestamp + c.ttl < env.now := httl
    constructor <;>
      simp [reconcile, hdel, hconds, henv, hres, hfin, hst, hup, hde,
        evaluateCELConditions, evaluateCELConditionsLoop, setReadyCondition,
        not_lt.2 (le_of_lt httl2), httl2, finalizerNames, addFinalizer,
        targetFinalizerName, releaseFinalizerName, cloudEventFinalizerName]

/-- A one-condition-free, one-target environment for the C10 witness:
the store holds the selector target's empty listing. -/
def envAt50 : ReconcileEnv :=
  ⟨emptyStore, 50, none, fun _ => .boolean true, fun _ => none, none, none, none⟩

/-- An expired ConditionalTTL (created at 0, ttl 10, observed at 50) with
one label-selector target and no conditions. -/
def expiredCTTL : ConditionalTTL :=
  ⟨"ns", 0, none, 3, [], 10, none, [selectorTarget], [], ⟨[], none, none⟩⟩

/-- Witness for C10: the expired, condition-free object freezes its
(empty-listing) target snapshot, attaches all three finalizers and
requests its own deletion, in that order, with no error. -/
theorem empty_conditions_terminate_immediately_witness :
    (reconcile envAt50 expiredCTTL).trace =
      [.statusUpdate ⟨[⟨"grp", true, true, .list []⟩], some envAt50.now, some
          ⟨ConditionTypeReady, .conditionTrue, .terminating,
            "Targets resolved and conditions met", expiredCTTL.generation⟩⟩,
        .update finalizerNames, .deleteSelf finalizerNames]
    ∧ (reconcile envAt50 expiredCTTL).err = none :=
  empty_conditions_terminate_immediately.2 envAt50 expiredCTTL
    [⟨"grp", true, true, .list []⟩] rfl (by decide) rfl rfl (by decide) rfl rfl rfl rfl

/-! ## C8: the persisted Ready reason strings -/

/-- C8 counterexample: four of the persisted reason constants carry a
`Condition` prefix in `api/v1alpha1/conditions.go`; the persisted string
for a compile error is `"ConditionCompileError"`, not `"CompileError"`,
and likewise for the environment, evaluation and non-boolean-result
reasons. -/
theorem ready_reason_strings_counterexample :
    ConditionReason.compileError.goString = "ConditionCompileError"
    ∧ ConditionReason.compileError.goString ≠ "CompileError"
    ∧ ConditionReason.environmentError.goString ≠ "EnvironmentError"
    ∧ ConditionReason.evaluationError.goString ≠ "EvaluationError"
    ∧ ConditionReason.resultNotBoolean.goString ≠ "ResultNotBoolean" := by
  refine ⟨rfl, ?_, ?_, ?_⟩ <;> decide

/-- The deletion branch performs no status updates. -/
theorem reconcileDeletion_no_statusUpdate (env : ReconcileEnv) (c : ConditionalTTL)
    (st : CTTLStatus) : Event.statusUpdate st ∉ (reconcileDeletion env c).trace := by
  unfold reconcileDeletion
  split
  · simp
  · split
    · simp
    · split <;> simp

/-- Every reason other than `KeepMinimumAmount` persists as one of the
eight strings of the actual constants. -/
theorem goString_mem_of_ne_keep (r : ConditionReason)
    (h : r ≠ .keepMinimumAmount) :
    r.goString ∈ ["NotExpired", "TargetResolveError", "ConditionEnvironmentError",
      "ConditionCompileError", "ConditionEvaluationError",
      "ConditionResultNotBoolean", "WaitingForConditions", "Terminating"] := by
  cases r <;> simp_all [ConditionReason.goString]


/-- `addFinalizer` preserves membership. -/
theorem mem_addFinalizer_of_mem {fins : List String} {f g : String}
    (h : f ∈ fins) : f ∈ addFinalizer fins g := by
  unfold addFinalizer
  split <;> simp [h]

/-- `addFinalizer` puts its argument in. -/
theorem mem_addFinalizer_self (fins : List String) (f : String) :
    f ∈ addFinalizer fins f := by
  unfold addFinalizer
  split
  · next h => exact List.mem_of_elem_eq_true h
  · simp

/-- Folding `addFinalizer` keeps existing members. -/
theorem mem_foldl_addFinalizer_of_mem :
    ∀ (names fins : List String) (f : String),
      f ∈ fins → f ∈ names.foldl addFinalizer fins
  | [], _, _, h => h
  | n :: names, fins, f, h =>
    mem_foldl_addFinalizer_of_mem names (addFinalizer fins n) f
      (mem_addFinalizer_of_mem h)

/-- Folding `addFinalizer` over a name list makes every name a member. -/
theorem mem_foldl_addFinalizer :
    ∀ (names fins : List String) (f : String),
      f ∈ names → f ∈ names.foldl addFinalizer fins
  | [], _, _, h => absurd h (List.not_mem_nil _)
  | n :: names, fins, f, h => by
    rcases List.mem_cons.mp h with rfl | h
    · exact mem_foldl_addFinalizer_of_mem names _ f (mem_addFinalizer_self fins f)
    · exact mem_foldl_addFinalizer names _ f h

/-- The shapes a non-deletion reconciliation pass's trace can take, with
the Ready condition each status update carries. -/
theorem reconcile_main_trace_cases (env : ReconcileEnv) (c : ConditionalTTL)
    (hdel : c.deletionTimestamp = none) :
    (∃ mc : MetaCondition,
      (reconcile env c).trace = [.statusUpdate { c.status with ready := some mc }]
      ∧ (mc.reason = .notExpired ∨ mc.reason = .targetResolveError
         ∨ mc.reason = (evaluateCELConditions env.envErr env.celEval c.conditions).reason))
    ∨ (∃ st : CTTLStatus,
      st.ready = some ⟨ConditionTypeReady,
        (evaluateCELConditions env.envErr env.celEval c.conditions).status,
        (evaluateCELConditions env.envErr env.celEval c.conditions).reason,
        (evaluateCELConditions env.envErr env.celEval c.conditions).message,
        c.generation⟩
      ∧ ((reconcile env c).trace = [.statusUpdate st]
         ∨ ((reconcile env c).trace =
              [.statusUpdate st, .update (finalizerNames.foldl addFinalizer c.finalizers)])
         ∨ ((reconcile env c).trace =
              [.statusUpdate st, .update (finalizerNames.foldl addFinalizer c.finalizers),
                .deleteSelf (finalizerNames.foldl addFinalizer c.finalizers)]
            ∧ env.updateErr = none)
         ∨ ((reconcile env c).trace =
              [.statusUpdate st, .deleteSelf (finalizerNames.foldl addFinalizer c.finalizers)]
            ∧ ∀ f ∈ finalizerNames, f ∈ c.finalizers))) := by
  by_cases httl : c.creationTimestamp + c.ttl < env.now
  · rcases hres : resolveTargets env.store c.nsName c.targets with e | ts
    · -- resolve error: one status update, TargetResolveError
      rcases hst : env.statusUpdateErr with _ | e2 <;>
        exact Or.inl ⟨⟨ConditionTypeReady, .conditionFalse, .targetResolveError,
            "Error resolving targets: " ++ e, c.generation⟩, by
          simp [reconcile, hdel, httl, hres, hst, setReadyCondition],
          Or.inr (Or.inl rfl)⟩
    · by_cases hmet :
        (evaluateCELConditions env.envErr env.celEval c.conditions).conditionsMet = true
      · -- conditions met: freeze, attach, delete
        rcases hst : env.statusUpdateErr with _ | e2
        · by_cases hnu : (finalizerNames.any fun f => !(c.finalizers.contains f)) = true
          · have hnuP : ∃ x ∈ finalizerNames, x ∉ c.finalizers := by simpa using hnu
            rcases hup : env.updateErr with _ | e3
            · rcases hde : env.deleteErr with _ | e4
              · refine Or.inr ⟨⟨ts, some env.now, some ⟨ConditionTypeReady,
              (evaluateCELConditions env.envErr env.celEval c.conditions).status,
              (evaluateCELConditions env.envErr env.celEval c.conditions).reason,
              (evaluateCELConditions env.envErr env.celEval c.conditions).message,
              c.generation⟩⟩, rfl, Or.inr (Or.inr (Or.inl ⟨?_, rfl⟩))⟩
                simp [reconcile, hdel, httl, hres, hmet, hst, hnuP, hup, hde,
                  setReadyCondition]
              · refine Or.inr ⟨⟨ts, some env.now, some ⟨ConditionTypeReady,
              (evaluateCELConditions env.envErr env.celEval c.conditions).status,
              (evaluateCELConditions env.envErr env.celEval c.conditions).reason,
              (evaluateCELConditions env.envErr env.celEval c.conditions).message,
              c.generation⟩⟩, rfl, Or.inr (Or.inr (Or.inl ⟨?_, rfl⟩))⟩
                simp [reconcile, hdel, httl, hres, hmet, hst, hnuP, hup, hde,
                  setReadyCondition]
            · refine Or.inr ⟨⟨ts, some env.now, some ⟨ConditionTypeReady,
              (evaluateCELConditions env.envErr env.celEval c.conditions).status,
              (evaluateCELConditions env.envErr env.celEval c.conditions).reason,
              (evaluateCELConditions env.envErr env.celEval c.conditions).message,
              c.generation⟩⟩, rfl, Or.inr (Or.inl ?_)⟩
              simp [reconcile, hdel, httl, hres, hmet, hst, hnuP, hup,
                setReadyCondition]
          · have hnu2 : (finalizerNames.any fun f => !(c.finalizers.contains f)) = false := by
              simpa using hnu
            have hall : ∀ f ∈ finalizerNames, f ∈ c.finalizers := by
              intro f hf
              have := List.any_eq_false.mp hnu2 f hf
              simpa using this
            have hnuP : ¬ ∃ x ∈ finalizerNames, x ∉ c.finalizers := by
              push_neg
              exact hall
            rcases hde : env.deleteErr with _ | e4
            · refine Or.inr ⟨⟨ts, some env.now, some ⟨ConditionTypeReady,
              (evaluateCELConditions env.envErr env.celEval c.conditions).status,
              (evaluateCELConditions env.envErr env.celEval c.conditions).reason,
              (evaluateCELConditions env.envErr env.celEval c.conditions).message,
              c.generation⟩⟩, rfl, Or.inr (Or.inr (Or.inr ⟨?_, hall⟩))⟩
              simp [reconcile, hdel, httl, hres, hmet, hst, hnuP, hde,
                setReadyCondition]
            · refine Or.inr ⟨⟨ts, some env.now, some ⟨ConditionTypeReady,
              (evaluateCELConditions env.envErr env.celEval c.conditions).status,
              (evaluateCELConditions env.envErr env.celEval c.conditions).reason,
              (evaluateCELConditions env.envErr env.celEval c.conditions).message,
              c.generation⟩⟩, rfl, Or.inr (Or.inr (Or.inr ⟨?_, hall⟩))⟩
              simp [reconcile, hdel, httl, hres, hmet, hst, hnuP, hde,
                setReadyCondition]
        · refine Or.inr ⟨⟨ts, some env.now, some ⟨ConditionTypeReady,
              (evaluateCELConditions env.envErr env.celEval c.conditions).status,
              (evaluateCELConditions env.envErr env.celEval c.conditions).reason,
              (evaluateCELConditions env.envErr env.celEval c.conditions).message,
              c.generation⟩⟩, rfl, Or.inl ?_⟩
          simp [reconcile, hdel, httl, hres, hmet, hst, setReadyCondition]
      · -- conditions not met: one status update with the evaluator's verdict
        rcases hst : env.statusUpdateErr with _ | e2
        · by_cases hrb :
            ((evaluateCELConditions env.envErr env.celEval c.conditions).retryable
              && c.retryPeriod.isSome) = true
          · exact Or.inl ⟨⟨ConditionTypeReady,
              (evaluateCELConditions env.envErr env.celEval c.conditions).status,
              (evaluateCELConditions env.envErr env.celEval c.conditions).reason,
              (evaluateCELConditions env.envErr env.celEval c.conditions).message,
              c.generation⟩, by
              simp [reconcile, hdel, httl, hres, hmet, hst, hrb, setReadyCondition],
              Or.inr (Or.inr rfl)⟩
          · exact Or.inl ⟨⟨ConditionTypeReady,
              (evaluateCELConditions env.envErr env.celEval c.conditions).status,
              (evaluateCELConditions env.envErr env.celEval c.conditions).reason,
              (evaluateCELConditions env.envErr env.celEval c.conditions).message,
              c.generation⟩, by
              simp [reconcile, hdel, httl, hres, hmet, hst, hrb, setReadyCondition],
              Or.inr (Or.inr rfl)⟩
        · exact Or.inl ⟨⟨ConditionTypeReady,
            (evaluateCELConditions env.envErr env.celEval c.conditions).status,
            (evaluateCELConditions env.envErr env.celEval c.conditions).reason,
            (evaluateCELConditions env.envErr env.celEval c.conditions).message,
            c.generation⟩, by
            simp [reconcile, hdel, httl, hres, hmet, hst, setReadyCondition],
            Or.inr (Or.inr rfl)⟩
  · -- not expired: one status update, NotExpired
    rcases hst : env.statusUpdateErr with _ | e2 <;>
      exact Or.inl ⟨⟨ConditionTypeReady, .conditionUnknown, .notExpired,
          "Waiting for resource to expire", c.generation⟩, by
        simp [reconcile, hdel, httl, hst, setReadyCondition], Or.inl rfl⟩

/-- The evaluator never produces the `KeepMinimumAmount` reason. -/
theorem evalReason_ne_keep (envErr : Option String) (ev : String → CELOutcome)
    (conds : List String) :
    (evaluateCELConditions envErr ev conds).reason ≠ .keepMinimumAmount := by
  have h := evalResult_reason_cases envErr ev conds
  intro hk
  rw [hk] at h
  simp at h

/-- C8 amended: each reason constant carries exactly its Go literal — the
four condition-evaluation reasons are prefixed with `Condition`, unlike
the spec's unprefixed names — and every Ready condition a reconciliation
pass publishes through a status update uses one of those eight strings. -/
theorem ready_reason_strings_exact :
    (ConditionReason.notExpired.goString = "NotExpired"
      ∧ ConditionReason.targetResolveError.goString = "TargetResolveError"
      ∧ ConditionReason.environmentError.goString = "ConditionEnvironmentError"
      ∧ ConditionReason.compileError.goString = "ConditionCompileError"
      ∧ ConditionReason.evaluationError.goString = "ConditionEvaluationError"
      ∧ ConditionReason.resultNotBoolean.goString = "ConditionResultNotBoolean"
      ∧ ConditionReason.waitingForConditions.goString = "WaitingForConditions"
      ∧ ConditionReason.terminating.goString = "Terminating")
    ∧ ∀ (env : ReconcileEnv) (c : ConditionalTTL) (st : CTTLStatus)
        (mc : MetaCondition),
      Event.statusUpdate st ∈ (reconcile env c).trace →
      st.ready = some mc →
      mc.reason.goString ∈ ["NotExpired", "TargetResolveError",
        "ConditionEnvironmentError", "ConditionCompileError",
        "ConditionEvaluationError", "ConditionResultNotBoolean",
        "WaitingForConditions", "Terminating"] := by
  refine ⟨⟨rfl, rfl, rfl, rfl, rfl, rfl, rfl, rfl⟩, ?_⟩
  intro env c st mc hmem hready
  by_cases hdel : c.deletionTimestamp = none
  · refine goString_mem_of_ne_keep mc.reason ?_
    rcases reconcile_main_trace_cases env c hdel with ⟨mc2, htr, hr⟩ | ⟨st2, hr2, hshapes⟩
    · rw [htr] at hmem
      simp only [List.mem_singleton, Event.statusUpdate.injEq] at hmem
      subst hmem
      simp only [Option.some.injEq] at hready
      subst hready
      rcases hr with h | h | h <;> rw [h]
      · simp
      · simp
      · exact evalReason_ne_keep env.envErr env.celEval c.conditions
    · have hst2 : st = st2 := by
        rcases hshapes with h | h | ⟨h, _⟩ | ⟨h, _⟩ <;> rw [h] at hmem <;>
          simp at hmem <;> exact hmem
      subst hst2
      rw [hr2] at hready
      simp only [Option.some.injEq] at hready
      subst hready
      exact evalReason_ne_keep env.envErr env.celEval c.conditions
  · have hne : c.deletionTimestamp ≠ none := hdel
    rw [reconcile, if_pos hne] at hmem
    exact absurd hmem (reconcileDeletion_no_statusUpdate env c st)

/-- Witness for the amended C8: the NotExpired condition written for the
fresh object at instant 5 persists with reason string `"NotExpired"`. -/
theorem ready_reason_strings_exact_witness :
    (⟨ConditionTypeReady, .conditionUnknown, .notExpired,
        "Waiting for resource to expire",
        freshCTTL.generation⟩ : MetaCondition).reason.goString ∈
      ["NotExpired", "TargetResolveError", "ConditionEnvironmentError",
        "ConditionCompileError", "ConditionEvaluationError",
        "ConditionResultNotBoolean", "WaitingForConditions", "Terminating"] :=
  ready_reason_strings_exact.2 envAt5 freshCTTL
    { freshCTTL.status with ready := some ⟨ConditionTypeReady, .conditionUnknown,
        .notExpired, "Waiting for resource to expire", freshCTTL.generation⟩ }
    ⟨ConditionTypeReady, .conditionUnknown, .notExpired,
      "Waiting for resource to expire", freshCTTL.generation⟩
    (by decide) rfl

/-! ## C3: the finalizer protocol -/

/-- Whether an event is the execution of a finalizer handler. -/
def isRunFinalizer : Event → Bool
  | .runFinalizer _ => true
  | _ => false

/-- C3: self-deletion is requested only with all three finalizer markers
attached — and, when any was missing, only after the update persisting
them succeeded and preceded the delete call in the pass's trace; in the
deletion branch at most one not-yet-run finalizer step executes per pass
(the first marked one in declared order), and on handler success exactly
that marker is removed and persisted before the pass returns. -/
theorem finalizer_attach_detach_protocol :
    (∀ (env : ReconcileEnv) (c : ConditionalTTL),
      (reconcile env c).trace.countP isRunFinalizer ≤ 1)
    ∧ (∀ (env : ReconcileEnv) (c : ConditionalTTL) (fs : List String),
      c.deletionTimestamp = none →
      Event.deleteSelf fs ∈ (reconcile env c).trace →
      (∀ f ∈ finalizerNames, f ∈ fs)
      ∧ ((¬ ∀ f ∈ finalizerNames, f ∈ c.finalizers) →
          env.updateErr = none
          ∧ ∃ tr1 tr2, (reconcile env c).trace = tr1 ++ Event.update fs :: tr2
            ∧ Event.deleteSelf fs ∈ tr2))
    ∧ (∀ (env : ReconcileEnv) (c : ConditionalTTL) (f : String),
      c.deletionTimestamp ≠ none →
      Event.runFinalizer f ∈ (reconcile env c).trace →
      finalizerNames.find? (containsFinalizer c) = some f
      ∧ (env.finalizerErr f = none → env.updateErr = none →
          (reconcile env c).trace =
            [.runFinalizer f, .update (removeFinalizer c.finalizers f)]
          ∧ f ∉ removeFinalizer c.finalizers f
          ∧ (reconcile env c).cttl.finalizers = removeFinalizer c.finalizers f
          ∧ (reconcile env c).err = none)) := by
  refine ⟨?_, ?_, ?_⟩
  · -- at most one finalizer execution per pass
    intro env c
    by_cases hdel : c.deletionTimestamp = none
    · rcases reconcile_main_trace_cases env c hdel with ⟨mc, htr, _⟩ | ⟨st, _, hshapes⟩
      · rw [htr]; simp [isRunFinalizer]
      · rcases hshapes with h | h | ⟨h, _⟩ | ⟨h, _⟩ <;> rw [h] <;>
          simp [isRunFinalizer]
    · have hne : c.deletionTimestamp ≠ none := hdel
      rw [reconcile, if_pos hne]
      unfold reconcileDeletion
      split
      · simp
      · split
        · simp [isRunFinalizer]
        · split <;> simp [isRunFinalizer]
  · -- delete only after all markers attached and persisted
    intro env c fs hdel hmem
    rcases reconcile_main_trace_cases env c hdel with ⟨mc, htr, _⟩ | ⟨st, _, hshapes⟩
    · rw [htr] at hmem
      simp at hmem
    · rcases hshapes with h | h | ⟨h, hup⟩ | ⟨h, hall⟩
      · rw [h] at hmem; simp at hmem
      · rw [h] at hmem; simp at hmem
      · rw [h] at hmem
        simp at hmem
        subst hmem
        refine ⟨fun f hf => mem_foldl_addFinalizer finalizerNames c.finalizers f hf, ?_⟩
        intro _
        exact ⟨hup, [.statusUpdate st],
          [.deleteSelf (finalizerNames.foldl addFinalizer c.finalizers)],
          by rw [h]; rfl, by simp⟩
      · rw [h] at hmem
        simp at hmem
        subst hmem
        refine ⟨fun f hf =>
          mem_foldl_addFinalizer_of_mem finalizerNames c.finalizers f (hall f hf), ?_⟩
        intro hmiss
        exact absurd hall hmiss
  · -- deletion branch: first marked finalizer, marker removed and persisted
    intro env c f hne hmem
    rw [reconcile, if_pos hne] at hmem ⊢
    unfold reconcileDeletion at hmem ⊢
    rcases hfind : finalizerNames.find? (containsFinalizer c) with _ | g
    · simp only [hfind] at hmem
      simp at hmem
    · simp only [hfind] at hmem
      rcases hferr : env.finalizerErr g with _ | e
      · rcases hup : env.updateErr with _ | e2
        · simp only [hferr, hup] at hmem ⊢
          simp at hmem
          subst hmem
          refine ⟨rfl, ?_⟩
          intro _ _
          simp [removeFinalizer]
        · simp only [hferr, hup] at hmem ⊢
          simp at hmem
          subst hmem
          refine ⟨rfl, ?_⟩
          intro _ hup2
          exact absurd hup2 (by simp)
      · simp only [hferr] at hmem ⊢
        simp at hmem
        subst hmem
        refine ⟨rfl, ?_⟩
        intro hferr2 _
        rw [hferr] at hferr2
        exact absurd hferr2 (by simp)

/-- An object being deleted that still carries all three markers, for the
C3 witness. -/
def deletingCTTL : ConditionalTTL :=
  ⟨"ns", 0, some 20, 3, finalizerNames, 10, none, [], [], ⟨[], none, none⟩⟩

/-- Witness for C3, combining all three parts at concrete inputs: the
count bound for the fresh object's pass, the attach-before-delete facts
for the expired object's pass, and the single-step detach for a pass over
an object under deletion. -/
theorem finalizer_attach_detach_protocol_witness :
    (reconcile envAt5 freshCTTL).trace.countP isRunFinalizer ≤ 1
    ∧ (∀ f ∈ finalizerNames, f ∈ finalizerNames)
    ∧ (reconcile envAt50 deletingCTTL).trace =
        [.runFinalizer targetFinalizerName,
          .update (removeFinalizer deletingCTTL.finalizers targetFinalizerName)] :=
  ⟨finalizer_attach_detach_protocol.1 envAt5 freshCTTL,
   (finalizer_attach_detach_protocol.2.1 envAt50 expiredCTTL finalizerNames rfl
      (by decide)).1,
   ((finalizer_attach_detach_protocol.2.2 envAt50 deletingCTTL targetFinalizerName
      (by decide) (by decide)).2 rfl rfl).1⟩

/-! ## C1: stability of the sort functions

`sortByOrder` and `sortUnstructured` sort with Go's `sort.Slice`.  For
ranges of at most `maxInsertion = 12` elements pdqsort is plain insertion
sort, which is stable; the first partitioning step of a longer range
moves the pivot by swapping non-adjacent elements and reorders equal
keys.  The lemmas below prove the ≤ 12 case; a 13-element list refutes
the general claim. -/

/-- `lswap` on a `cons` at successor indices acts on the tail. -/
theorem lswap_cons {α : Type} (a : α) (t : List α) (i j : Nat) :
    lswap (a :: t) (i+1) (j+1) = a :: lswap t i j := by
  unfold lswap
  cases hi : t.get? i <;> cases hj : t.get? j <;>
    simp only [List.get?_eq_getElem?] at hi hj <;>
    simp [List.get?_cons_succ, hi, hj, List.set]

/-- Decomposition of an adjacent swap: if `j + 1` is in range, the list
splits as `u ++ x :: y :: v` with `u.length = j`, and swapping `j+1, j`
exchanges `x` and `y` in place. -/
theorem lswap_adj_decomp {α : Type} :
    ∀ (j : Nat) (l : List α), j + 1 < l.length →
      ∃ u x y v, l = u ++ x :: y :: v ∧ u.length = j
        ∧ l.get? j = some x ∧ l.get? (j+1) = some y
        ∧ lswap l (j+1) j = u ++ y :: x :: v
  | 0, [], h => absurd h (by simp)
  | 0, [_], h => absurd h (by simp)
  | 0, x :: y :: v, _ =>
    ⟨[], x, y, v, rfl, rfl, rfl, rfl, by simp [lswap, List.set]⟩
  | j+1, [], h => absurd h (by simp)
  | j+1, a :: t, h => by
    obtain ⟨u, x, y, v, h1, h2, h3, h4, h5⟩ :=
      lswap_adj_decomp j t (by simpa using h)
    exact ⟨a :: u, x, y, v, by simp [h1], by simp [h2], by simpa using h3,
      by simpa using h4, by rw [lswap_cons, h5]; simp⟩

/-- Swapping two adjacent elements of which at most one satisfies `P`
does not change the `P`-filtered sublist. -/
theorem filter_adjacent_swap {α : Type} (P : α → Bool) (u v : List α) (x y : α)
    (h : ¬(P x = true ∧ P y = true)) :
    (u ++ y :: x :: v).filter P = (u ++ x :: y :: v).filter P := by
  simp only [List.filter_append, List.filter_cons]
  cases hx : P x <;> cases hy : P y <;> simp_all

/-- An adjacent swap performed by the sorts (which only happens when the
element at `j+1` is strictly `less` than the element at `j`) preserves
the filtered sublist of any class on which `less` is irreflexive. -/
theorem filter_lswap_of_lless {α : Type} (less : α → α → Bool) (P : α → Bool)
    (hP : ∀ x y, P x = true → P y = true → less x y = false)
    (l : List α) (j : Nat) (hsw : lless less l (j+1) j = true) :
    (lswap l (j+1) j).filter P = l.filter P := by
  have hj : ∃ y, l.get? (j+1) = some y := by
    unfold lless at hsw
    cases hy : l.get? (j+1) with
    | none => rw [hy] at hsw; cases hx : l.get? j <;> rw [hx] at hsw <;> simp at hsw
    | some y => exact ⟨y, rfl⟩
  obtain ⟨y0, hy0⟩ := hj
  have hrange : j + 1 < l.length := List.get?_eq_some.mp hy0 |>.1
  obtain ⟨u, x, y, v, h1, _, h3, h4, h5⟩ := lswap_adj_decomp j l hrange
  have hyy : y = y0 := by rw [h4] at hy0; injection hy0
  subst hyy
  have hless : less y x = true := by
    unfold lless at hsw
    rw [h3, h4] at hsw
    exact hsw
  have hnot : ¬(P x = true ∧ P y = true) := by
    rintro ⟨hx, hy⟩
    rw [hP y x hy hx] at hless
    cases hless
  rw [h5, h1]
  exact filter_adjacent_swap P u v x y hnot

/-- The bubble-left inner loop of insertion sort preserves every
`less`-irreflexive class's filtered sublist. -/
theorem insertionSortInner_filter {α : Type} (less : α → α → Bool) (P : α → Bool)
    (hP : ∀ x y, P x = true → P y = true → less x y = false) (a : Nat) :
    ∀ (j : Nat) (l : List α),
      (insertionSortInner less a l j).filter P = l.filter P
  | 0, l => rfl
  | j+1, l => by
    rw [insertionSortInner]
    split
    · next hc =>
      have hsw : lless less l (j+1) j = true := (Bool.and_eq_true _ _ ▸ hc).2
      rw [insertionSortInner_filter less P hP a j (lswap l (j+1) j)]
      exact filter_lswap_of_lless less P hP l j hsw
    · rfl

/-- The outer loop of insertion sort preserves filtered sublists. -/
theorem insertionSortOuter_filter {α : Type} (less : α → α → Bool) (P : α → Bool)
    (hP : ∀ x y, P x = true → P y = true → less x y = false) (a b : Nat) :
    ∀ (fuel i : Nat) (l : List α),
      (insertionSortOuter less a b l i fuel).filter P = l.filter P
  | 0, _, l => rfl
  | fuel+1, i, l => by
    rw [insertionSortOuter]
    split
    · rw [insertionSortOuter_filter less P hP a b fuel (i+1) _]
      exact insertionSortInner_filter less P hP a i l
    · rfl

/-- `insertionSort_func` preserves filtered sublists. -/
theorem insertionSort_func_filter {α : Type} (less : α → α → Bool) (P : α → Bool)
    (hP : ∀ x y, P x = true → P y = true → less x y = false)
    (l : List α) (a b : Nat) :
    (insertionSort_func less l a b).filter P = l.filter P :=
  insertionSortOuter_filter less P hP a b (b - a) (a+1) l

/-- For lists of at most 12 elements, `sort.Slice` is the insertion sort
and preserves every `less`-irreflexive class's filtered sublist. -/
theorem sortSlice_filter_small {α : Type} (less : α → α → Bool) (P : α → Bool)
    (hP : ∀ x y, P x = true → P y = true → less x y = false)
    (l : List α) (h12 : l.length ≤ 12) :
    (sortSlice less l).filter P = l.filter P := by
  unfold sortSlice
  obtain ⟨m, hm⟩ : ∃ m, l.length + 100 = m + 1 := ⟨l.length + 99, by omega⟩
  rw [hm, pdqsortLoop]
  rw [if_pos (by simpa using h12)]
  exact insertionSort_func_filter less P hP l 0 l.length

/-- For equal keys the ascending predicate never swaps. -/
theorem ascSortLess_irrefl_class {κ α : Type} [LinearOrder κ] (k : κ)
    (x y : GoPair κ α) (hx : decide (x.order = k) = true)
    (hy : decide (y.order = k) = true) : ascSortLess compare x y = false := by
  have hx2 : x.order = k := of_decide_eq_true hx
  have hy2 : y.order = k := of_decide_eq_true hy
  unfold ascSortLess
  rw [hx2, hy2, (compare_eq_iff_eq).mpr rfl]

/-- For equal keys the descending predicate never swaps. -/
theorem descSortLess_irrefl_class {κ α : Type} [LinearOrder κ] (k : κ)
    (x y : GoPair κ α) (hx : decide (x.order = k) = true)
    (hy : decide (y.order = k) = true) : descSortLess compare x y = false := by
  have hx2 : x.order = k := of_decide_eq_true hx
  have hy2 : y.order = k := of_decide_eq_true hy
  unfold descSortLess
  rw [hx2, hy2, (compare_eq_iff_eq).mpr rfl]

/-- C1 amended: the CEL sort functions delegate to `sort.Slice` and are
stable only for inputs of at most 12 elements (pdqsort's insertion-sort
regime): there, for every key class, the sorted output's subsequence of
equal-keyed elements is the input's subsequence, for ascending and
descending order and for both `sortByOrder` and `sortUnstructured`.
For longer inputs stability fails (see the 13-element counterexample). -/
theorem sort_stable_only_upto_twelve :
    (∀ (κ α : Type) [inst : LinearOrder κ] (l : List (GoPair κ α)) (k : κ),
      l.length ≤ 12 →
      sortByOrder compare l AscendingOrder =
        .ok ((sortSlice (ascSortLess compare) l).map GoPair.value)
      ∧ sortByOrder compare l DescendingOrder =
        .ok ((sortSlice (descSortLess compare) l).map GoPair.value)
      ∧ (sortSlice (ascSortLess compare) l).filter (fun p => decide (p.order = k)) =
          l.filter (fun p => decide (p.order = k))
      ∧ (sortSlice (descSortLess compare) l).filter (fun p => decide (p.order = k)) =
          l.filter (fun p => decide (p.order = k)))
    ∧ (∀ (l : List Unstr) (ts : Int),
      l.length ≤ 12 →
      sortUnstructured l AscendingOrder = .ok (sortSlice unstrAscLess l)
      ∧ sortUnstructured l DescendingOrder = .ok (sortSlice unstrDescLess l)
      ∧ (sortSlice unstrAscLess l).filter (fun u => decide (u.creationTimestamp = ts)) =
          l.filter (fun u => decide (u.creationTimestamp = ts))
      ∧ (sortSlice unstrDescLess l).filter (fun u => decide (u.creationTimestamp = ts)) =
          l.filter (fun u => decide (u.creationTimestamp = ts))) := by
  have hasc : goToLower AscendingOrder = AscendingOrder := by decide
  have hdesc : goToLower DescendingOrder = DescendingOrder := by decide
  have hda : goToLower DescendingOrder ≠ AscendingOrder := by decide
  have hda2 : DescendingOrder ≠ AscendingOrder := by decide
  constructor
  · intro κ α _inst l k h12
    refine ⟨?_, ?_, ?_, ?_⟩
    · simp [sortByOrder, hasc]
    · simp [sortByOrder, hdesc, hda, hda2]
    · exact sortSlice_filter_small (ascSortLess compare) _
        (ascSortLess_irrefl_class k) l h12
    · exact sortSlice_filter_small (descSortLess compare) _
        (descSortLess_irrefl_class k) l h12
  · intro l ts h12
    refine ⟨?_, ?_, ?_, ?_⟩
    · simp [sortUnstructured, hasc]
    · simp [sortUnstructured, hdesc, hda, hda2]
    · refine sortSlice_filter_small unstrAscLess _ ?_ l h12
      intro x y hx hy
      have hx2 : x.creationTimestamp = ts := of_decide_eq_true hx
      have hy2 : y.creationTimestamp = ts := of_decide_eq_true hy
      simp [unstrAscLess, hx2, hy2]
    · refine sortSlice_filter_small unstrDescLess _ ?_ l h12
      intro x y hx hy
      have hx2 : x.creationTimestamp = ts := of_decide_eq_true hx
      have hy2 : y.creationTimestamp = ts := of_decide_eq_true hy
      simp [unstrDescLess, hx2, hy2]

/-- A short (4-element) pair list with a tied key class, for the C1
witness. -/
def shortTiedPairs : List (GoPair Int Nat) :=
  [⟨1, 0⟩, ⟨0, 1⟩, ⟨0, 2⟩, ⟨1, 3⟩]

/-- A short tied unstructured list for the C1 witness. -/
def shortTiedUnstr : List Unstr := [⟨7, 0⟩, ⟨3, 1⟩, ⟨3, 2⟩]

/-- Witness for the amended C1: on the 4-element input with tied keys the
equal-key subsequences are preserved (ascending case shown for both
functions, applying the theorem at the concrete inputs). -/
theorem sort_stable_only_upto_twelve_witness :
    (sortSlice (ascSortLess compare) shortTiedPairs).filter
        (fun p => decide (p.order = (0 : Int))) =
      shortTiedPairs.filter (fun p => decide (p.order = (0 : Int)))
    ∧ (sortSlice unstrAscLess shortTiedUnstr).filter
        (fun u => decide (u.creationTimestamp = (3 : Int))) =
      shortTiedUnstr.filter (fun u => decide (u.creationTimestamp = (3 : Int))) :=
  ⟨(sort_stable_only_upto_twelve.1 Int Nat shortTiedPairs 0 (by decide)).2.2.1,
   (sort_stable_only_upto_twelve.2 shortTiedUnstr 3 (by decide)).2.2.1⟩

/-- The 13-element pair list (keys 0/1, values = input positions) on which
`sort.Slice` leaves the insertion-sort regime and breaks stability. -/
def stabilityCexPairs : List (GoPair Int Nat) :=
  [⟨1, 0⟩, ⟨0, 1⟩, ⟨1, 2⟩, ⟨0, 3⟩, ⟨1, 4⟩, ⟨0, 5⟩, ⟨0, 6⟩,
    ⟨1, 7⟩, ⟨0, 8⟩, ⟨1, 9⟩, ⟨0, 10⟩, ⟨1, 11⟩, ⟨0, 12⟩]

/-- C1 counterexample: on the 13-element input the ascending
`sortByOrder` emits the key-0 values as `[6, 1, 3, 5, 8, 10, 12]`,
whereas they occur in the input in order `[1, 3, 5, 6, 8, 10, 12]` —
the relative input order of equal-keyed elements is not preserved, so
the custom CEL sorts are not stable. -/
theorem sort_stability_counterexample :
    sortByOrder compare stabilityCexPairs AscendingOrder =
      .ok [6, 1, 3, 5, 8, 10, 12, 2, 4, 0, 7, 9, 11]
    ∧ (stabilityCexPairs.filter (fun p => decide (p.order = (0 : Int)))).map
        GoPair.value = [1, 3, 5, 6, 8, 10, 12]
    ∧ ((sortSlice (ascSortLess compare) stabilityCexPairs).filter
        (fun p => decide (p.order = (0 : Int)))).map GoPair.value ≠
      (stabilityCexPairs.filter (fun p => decide (p.order = (0 : Int)))).map
        GoPair.value := by
  refine ⟨by decide, by decide, by decide⟩
